import Mathlib

/-!
# Verification of the stock-trading-simulator order engine

Shallow embedding of the order-execution engine of the
`stock-trading-simulator` repository:

* `internal/models` (data model: `BuyRequest`, `Portfolio`, `Trade`),
* `internal/handlers/concurrent_trade.go` (`TradeProcessor.processTrade`,
  `SubmitTrade`, the worker pool, `Stop`),
* the trade handlers (`BuyStock`, `SellStock`),
* `internal/models/portfolio_manager.go` (`PortfolioManager`,
  `LockUser`/`UnlockUser`).

Money is modelled with exact rationals (`ℚ`) standing for the Go `float64`
values; quantities and user ids are `Int` as in the Go structs.  The SQL
statements executed inside a transaction are modelled as pure functions on a
`Ledger` value; `database/sql` transaction semantics (`Begin`, deferred
`Rollback`, `Commit`) are modelled by a `Txn` snapshot pair: mutations act on
`Txn.current`, an early error return publishes `Txn.rollback` (the snapshot),
and only a successful `Commit` publishes `Txn.current`.  Fallible store
operations are driven by an explicit `Faults` oracle saying which statement
fails.
-/

namespace StockSim

/-- `models.BuyRequest` (part_001): user id, symbol, quantity, unit price.
The binding tags require `Quantity ≥ 1` and `Price ≥ 0.01` at the HTTP layer;
the struct itself carries no side field. -/
structure BuyRequest where
  UserID : Int
  StockSymbol : String
  Quantity : Int
  Price : ℚ
deriving Repr, DecidableEq

/-- One row of the `portfolios` table: quantity held and average purchase
price for a (user, symbol) pair. -/
structure Position where
  quantity : Int
  avg_purchase_price : ℚ
deriving Repr, DecidableEq

/-- One row of the `trades` table (the append-only trade history). -/
structure Trade where
  user_id : Int
  stock_symbol : String
  trade_type : String
  quantity : Int
  price : ℚ
  total_amount : ℚ
deriving Repr, DecidableEq

/-- The visible ledger: the `users.cash_balance` column, the `portfolios`
table keyed by (user id, symbol), and the `trades` table as an append-only
list. -/
structure Ledger where
  cash_balance : Int → Option ℚ
  portfolios : Int → String → Option Position
  trades : List Trade

/-- `UPDATE users SET cash_balance = cash_balance - $1 WHERE id = $2`.
A missing user row means zero rows are affected (no error). -/
def debitAccount (l : Ledger) (uid : Int) (amt : ℚ) : Ledger :=
  { l with cash_balance := fun u =>
      if u = uid then (l.cash_balance u).map (fun b => b - amt)
      else l.cash_balance u }

/-- `UPDATE users SET cash_balance = cash_balance + $1 WHERE id = $2`. -/
def creditAccount (l : Ledger) (uid : Int) (amt : ℚ) : Ledger :=
  { l with cash_balance := fun u =>
      if u = uid then (l.cash_balance u).map (fun b => b + amt)
      else l.cash_balance u }

/-- The portfolio upsert of `processTrade` / `BuyStock`:
`INSERT INTO portfolios ... ON CONFLICT (user_id, stock_symbol) DO UPDATE SET
quantity = portfolios.quantity + $3, avg_purchase_price =
((portfolios.avg_purchase_price * portfolios.quantity) + ($4 * $3)) /
(portfolios.quantity + $3)`. -/
def upsertPortfolio (l : Ledger) (uid : Int) (sym : String) (qty : Int)
    (price : ℚ) : Ledger :=
  { l with portfolios := fun u s =>
      if u = uid ∧ s = sym then
        match l.portfolios uid sym with
        | none => some ⟨qty, price⟩
        | some p => some ⟨p.quantity + qty,
            (p.avg_purchase_price * (p.quantity : ℚ) + price * (qty : ℚ)) /
              ((p.quantity : ℚ) + (qty : ℚ))⟩
      else l.portfolios u s }

/-- `DELETE FROM portfolios WHERE user_id = $1 AND stock_symbol = $2`. -/
def deletePortfolio (l : Ledger) (uid : Int) (sym : String) : Ledger :=
  { l with portfolios := fun u s =>
      if u = uid ∧ s = sym then none else l.portfolios u s }

/-- `UPDATE portfolios SET quantity = $1 WHERE user_id = $2 AND
stock_symbol = $3` (average purchase price untouched). -/
def updatePortfolioQty (l : Ledger) (uid : Int) (sym : String)
    (newQty : Int) : Ledger :=
  { l with portfolios := fun u s =>
      if u = uid ∧ s = sym then
        (l.portfolios u s).map (fun p => { p with quantity := newQty })
      else l.portfolios u s }

/-- `INSERT INTO trades ... RETURNING id`: appends the row and returns the
fresh serial id (modelled as the new row count). -/
def appendTrade (l : Ledger) (t : Trade) : Ledger × Int :=
  ({ l with trades := l.trades ++ [t] }, (l.trades.length : Int) + 1)

/-- A `database/sql` transaction over the ledger: `snapshot` is the state at
`Begin`, `current` the state including uncommitted statements.  An early
error return publishes the snapshot (the deferred `Rollback`); `Commit`
publishes `current`. -/
structure Txn where
  snapshot : Ledger
  current : Ledger

/-- `db.DB.Begin()`. -/
def Txn.begin (l : Ledger) : Txn := ⟨l, l⟩

/-- `tx.Rollback()` — discards every uncommitted statement. -/
def Txn.rollback (t : Txn) : Ledger := t.snapshot

/-- `tx.Commit()` succeeding — publishes the uncommitted statements. -/
def Txn.commit (t : Txn) : Ledger := t.current

/-- Running one successful SQL statement inside the transaction: the
uncommitted view becomes `l'`, the snapshot is untouched. -/
def Txn.exec (t : Txn) (l' : Ledger) : Txn := ⟨t.snapshot, l'⟩

/-- Fault oracle for one trade: which fallible store operation fails.
`readFails` is a generic database error on the initial `SELECT ... FOR
UPDATE` (distinct from `sql.ErrNoRows`, which is the row being absent). -/
structure Faults where
  beginFails : Bool
  readFails : Bool
  updateBalanceFails : Bool
  updatePortfolioFails : Bool
  insertTradeFails : Bool
  commitFails : Bool
deriving Repr, DecidableEq

/-- The happy path: every store operation succeeds. -/
def noFaults : Faults := ⟨false, false, false, false, false, false⟩

/-- `handlers.TradeResult`: trade id, success flag, error string, total. -/
structure TradeResult where
  TradeID : Int
  Success : Bool
  Error : String
  TotalAmount : ℚ
deriving Repr, DecidableEq

/-- A failure result, with Go zero values for the other fields. -/
def TradeResult.fail (e : String) : TradeResult := ⟨0, false, e, 0⟩

/-- `TradeProcessor.processTrade` (concurrent_trade.go:84-166): the BUY
executor run by a worker while holding the user's lock.  Balance check,
debit, portfolio upsert, trade insert, commit — each statement inside one
transaction with a deferred rollback. -/
def processTrade (f : Faults) (l : Ledger) (req : BuyRequest) :
    TradeResult × Ledger :=
  if f.beginFails then (TradeResult.fail "Transaction failed", l)
  else
    let tx := Txn.begin l
    let totalCost := req.Price * (req.Quantity : ℚ)
    if f.readFails then (TradeResult.fail "Database error", tx.rollback)
    else
      match tx.current.cash_balance req.UserID with
      | none => (TradeResult.fail "User not found", tx.rollback)
      | some cashBalance =>
        if cashBalance < totalCost then
          (TradeResult.fail "Insufficient funds", tx.rollback)
        else if f.updateBalanceFails then
          (TradeResult.fail "Failed to update balance", tx.rollback)
        else
          let tx := tx.exec (debitAccount tx.current req.UserID totalCost)
          if f.updatePortfolioFails then
            (TradeResult.fail "Failed to update portfolio", tx.rollback)
          else
            let tx := tx.exec (upsertPortfolio tx.current req.UserID
              req.StockSymbol req.Quantity req.Price)
            if f.insertTradeFails then
              (TradeResult.fail "Failed to record trade", tx.rollback)
            else
              let r := appendTrade tx.current
                ⟨req.UserID, req.StockSymbol, "BUY", req.Quantity,
                 req.Price, totalCost⟩
              let tx := tx.exec r.1
              if f.commitFails then
                (TradeResult.fail "Transaction commit failed", tx.rollback)
              else
                (⟨r.2, true, "", totalCost⟩, tx.commit)

/-- `TradeProcessor.SubmitTrade` (concurrent_trade.go:169-181): enqueues the
request with a private reply channel and blocks for the result; the worker
that dequeues it runs `processTrade` under the user's lock and sends the
result back, so the synchronous contract is exactly `processTrade`. -/
def SubmitTrade (f : Faults) (l : Ledger) (req : BuyRequest) :
    TradeResult × Ledger :=
  processTrade f l req

/-- The gin response of `SellStock`: HTTP 400 with an error, HTTP 500 with
an error, or HTTP 200 with trade id and total proceeds. -/
inductive SellOutcome where
  | badRequest (error : String)
  | serverError (error : String)
  | ok (trade_id : Int) (total_proceeds : ℚ)
deriving Repr, DecidableEq

/-- Whether a `SellOutcome` is the HTTP 200 success response. -/
def SellOutcome.isOk : SellOutcome → Bool
  | .ok _ _ => true
  | _ => false

/-- `handlers.SellStock` (part_000:167-262): the direct sell handler.  Reads
the position `FOR UPDATE`, checks owned quantity, deletes or decrements the
position row, credits the balance, appends a SELL trade, commits — all
inside one transaction with a deferred rollback.  It does not touch the
`PortfolioManager` per-user lock. -/
def SellStock (f : Faults) (l : Ledger) (req : BuyRequest) :
    SellOutcome × Ledger :=
  if f.beginFails then (SellOutcome.serverError "Transaction failed", l)
  else
    let tx := Txn.begin l
    let totalProceeds := req.Price * (req.Quantity : ℚ)
    if f.readFails then
      (SellOutcome.serverError "Database error", tx.rollback)
    else
      match tx.current.portfolios req.UserID req.StockSymbol with
      | none => (SellOutcome.badRequest "You don't own this stock",
                 tx.rollback)
      | some pos =>
        let currentQuantity := pos.quantity
        if currentQuantity < req.Quantity then
          (SellOutcome.badRequest
            ("Insufficient shares. You own " ++ toString currentQuantity ++
             ", trying to sell " ++ toString req.Quantity), tx.rollback)
        else
          let newQuantity := currentQuantity - req.Quantity
          if f.updatePortfolioFails then
            (SellOutcome.serverError "Failed to update portfolio",
             tx.rollback)
          else
            let tx := tx.exec (if newQuantity = 0 then
                deletePortfolio tx.current req.UserID req.StockSymbol
              else
                updatePortfolioQty tx.current req.UserID req.StockSymbol
                  newQuantity)
            if f.updateBalanceFails then
              (SellOutcome.serverError "Failed to update balance",
               tx.rollback)
            else
              let tx := tx.exec
                (creditAccount tx.current req.UserID totalProceeds)
              if f.insertTradeFails then
                (SellOutcome.serverError "Failed to record trade",
                 tx.rollback)
              else
                let r := appendTrade tx.current
                  ⟨req.UserID, req.StockSymbol, "SELL", req.Quantity,
                   req.Price, totalProceeds⟩
                let tx := tx.exec r.1
                if f.commitFails then
                  (SellOutcome.serverError "Transaction commit failed",
                   tx.rollback)
                else
                  (SellOutcome.ok r.2 totalProceeds, tx.commit)

/-! ## The per-user lock registry (`internal/models/portfolio_manager.go`)

A `sync.Mutex` carries no owner; the ghost holder (`some g` = locked by
goroutine `g`, `none` = unlocked) exists only to state claims about who
holds a lock.  A map entry that was never created is `none` at the outer
`Option`. -/

/-- `models.PortfolioManager`: the lazily-populated map from user id to that
user's mutex.  The `mapMutex` protecting the map itself is invisible in this
sequential model (each call is one atomic map access). -/
structure PortfolioManager where
  userLocks : Int → Option (Option Nat)

/-- `models.NewPortfolioManager`: empty lock map. -/
def NewPortfolioManager : PortfolioManager := ⟨fun _ => none⟩

/-- What a call to `UnlockUser` does, observably: a successful unlock, a
silent no-op (nil map entry), or a runtime panic (`sync: unlock of unlocked
mutex`). -/
inductive UnlockOutcome where
  | ok
  | noop
  | panicked
deriving Repr, DecidableEq

/-- `PortfolioManager.UnlockUser` (portfolio_manager.go:38-46): reads the
map entry; if it is nil the call silently returns; otherwise it calls
`Mutex.Unlock`, which panics when the mutex is not locked and unlocks it
regardless of which goroutine locked it. -/
def UnlockUser (pm : PortfolioManager) (uid : Int) :
    UnlockOutcome × PortfolioManager :=
  match pm.userLocks uid with
  | none => (UnlockOutcome.noop, pm)
  | some none => (UnlockOutcome.panicked, pm)
  | some (some _) =>
      (UnlockOutcome.ok,
       ⟨fun u => if u = uid then some none else pm.userLocks u⟩)

/-- `PortfolioManager.LockUser` (portfolio_manager.go:22-35) as one atomic
fetch-or-insert plus lock acquisition by goroutine `g`; `none` means the
mutex is already locked and the caller blocks. -/
def LockUser (g : Nat) (pm : PortfolioManager) (uid : Int) :
    Option PortfolioManager :=
  match pm.userLocks uid with
  | some (some _) => none
  | _ => some ⟨fun u => if u = uid then some (some g) else pm.userLocks u⟩

/-! ## Interleaving model for per-user mutual exclusion (C1)

Each in-flight order is a remaining list of atomic actions.  An order going
through the worker pool runs `LockUser`; `executor`; `UnlockUser`
(`processTrade`, concurrent_trade.go:84-87); an order entering through the
direct `SellStock` handler runs only the executor, with no per-user lock.
A scheduler step picks any order and runs its next action; `acquire` is
enabled only when that user's lock is free. -/

/-- One atomic action of an in-flight order. -/
inductive LAction where
  | acquire (u : Int)
  | beginExec (u : Int)
  | endExec (u : Int)
  | release (u : Int)
deriving Repr, DecidableEq

/-- The action sequence of a worker-pool order (`processTrade`): take the
user's lock, run the ledger executor, release. -/
def buyProg (u : Int) : List LAction :=
  [LAction.acquire u, LAction.beginExec u, LAction.endExec u,
   LAction.release u]

/-- The action sequence of a direct `SellStock` request: it runs the ledger
executor without ever touching the `PortfolioManager`. -/
def sellProg (u : Int) : List LAction :=
  [LAction.beginExec u, LAction.endExec u]

/-- Global interleaving state: which users' mutexes are held, and each
in-flight order's remaining actions. -/
structure ConcState where
  lockHeld : Int → Bool
  orders : List (List LAction)

/-- One scheduler step: some order performs its next action.  `acquire`
blocks while the user's mutex is held; all other actions are always
enabled (a worker never aborts mid-execution). -/
inductive CStep : ConcState → ConcState → Prop where
  | acquire (s : ConcState) (i : Nat) (u : Int) (rest : List LAction) :
      s.orders[i]? = some (LAction.acquire u :: rest) →
      s.lockHeld u = false →
      CStep s ⟨fun v => if v = u then true else s.lockHeld v,
               s.orders.set i rest⟩
  | beginExec (s : ConcState) (i : Nat) (u : Int) (rest : List LAction) :
      s.orders[i]? = some (LAction.beginExec u :: rest) →
      CStep s ⟨s.lockHeld, s.orders.set i rest⟩
  | endExec (s : ConcState) (i : Nat) (u : Int) (rest : List LAction) :
      s.orders[i]? = some (LAction.endExec u :: rest) →
      CStep s ⟨s.lockHeld, s.orders.set i rest⟩
  | release (s : ConcState) (i : Nat) (u : Int) (rest : List LAction) :
      s.orders[i]? = some (LAction.release u :: rest) →
      CStep s ⟨fun v => if v = u then false else s.lockHeld v,
               s.orders.set i rest⟩

/-- Reachability under scheduler interleavings. -/
def CReach : ConcState → ConcState → Prop := Relation.ReflTransGen CStep

/-- Order `i` is currently between `beginExec` and `endExec` for user `u`:
its ledger execution is in progress. -/
def isExecuting (s : ConcState) (i : Nat) (u : Int) : Prop :=
  ∃ rest, s.orders[i]? = some (LAction.endExec u :: rest)

/-! ## Worker-pool shutdown model (C8)

`Stop` (concurrent_trade.go:55-59) closes `stopCh` and waits on the
`WaitGroup`.  Each worker (concurrent_trade.go:62-81) loops on a `select`
between `stopCh` and `tradeQueue`: when both are ready Go picks either
branch, so a stopped worker may exit while orders sit in the queue, but a
worker only observes the stop signal between trades, never mid-trade. -/

/-- A worker is idle in its `select`, busy processing a dequeued order, or
has returned (its `wg.Done` has run). -/
inductive WStatus where
  | idle
  | busy (o : Nat)
  | exited
deriving Repr, DecidableEq

/-- Whether the worker currently holds a dequeued-but-unfinished order. -/
def WStatus.isBusy : WStatus → Bool
  | .busy _ => true
  | _ => false

/-- Pool state: queued order ids, whether `stopCh` is closed, each worker's
status, and the results already delivered to submitters. -/
structure PoolState where
  queue : List Nat
  stopped : Bool
  workers : List WStatus
  delivered : List Nat
deriving Repr, DecidableEq

/-- One step of the pool: `Stop` closes the channel; an idle worker's
`select` takes a queued order; a busy worker finishes the trade and sends
its result; an idle worker's `select` takes the (closed) stop channel and
returns — allowed whenever `stopCh` is closed, even if orders remain
queued. -/
inductive PStep : PoolState → PoolState → Prop where
  | stop (s : PoolState) :
      s.stopped = false →
      PStep s ⟨s.queue, true, s.workers, s.delivered⟩
  | dequeue (s : PoolState) (i : Nat) (o : Nat) (rest : List Nat) :
      s.workers[i]? = some WStatus.idle →
      s.queue = o :: rest →
      PStep s ⟨rest, s.stopped, s.workers.set i (WStatus.busy o),
               s.delivered⟩
  | finish (s : PoolState) (i : Nat) (o : Nat) :
      s.workers[i]? = some (WStatus.busy o) →
      PStep s ⟨s.queue, s.stopped, s.workers.set i WStatus.idle,
               s.delivered ++ [o]⟩
  | exit (s : PoolState) (i : Nat) :
      s.workers[i]? = some WStatus.idle →
      s.stopped = true →
      PStep s ⟨s.queue, s.stopped, s.workers.set i WStatus.exited,
               s.delivered⟩

/-- Reachability of pool states. -/
def PReach : PoolState → PoolState → Prop := Relation.ReflTransGen PStep

/-- `Stop()` has returned: `wg.Wait` finished, i.e. every worker exited. -/
def stopReturned (s : PoolState) : Prop :=
  ∀ w ∈ s.workers, w = WStatus.exited

/-- Number of dequeued-but-unfinished (in-flight) orders. -/
def busyCount (s : PoolState) : Nat :=
  s.workers.countP WStatus.isBusy

/-! ## Committed states and case analysis of the two executors -/

/-- The ledger a successful BUY commits: debit, portfolio upsert and the
appended BUY trade record, as one unit. -/
def buyCommitted (l : Ledger) (req : BuyRequest) : Ledger :=
  (appendTrade
    (upsertPortfolio
      (debitAccount l req.UserID (req.Price * (req.Quantity : ℚ)))
      req.UserID req.StockSymbol req.Quantity req.Price)
    ⟨req.UserID, req.StockSymbol, "BUY", req.Quantity, req.Price,
     req.Price * (req.Quantity : ℚ)⟩).1

/-- The ledger a successful SELL commits: position delete-or-decrement,
credit, and the appended SELL trade record, as one unit. -/
def sellCommitted (l : Ledger) (req : BuyRequest) (pos : Position) :
    Ledger :=
  (appendTrade
    (creditAccount
      (if pos.quantity - req.Quantity = 0 then
        deletePortfolio l req.UserID req.StockSymbol
      else
        updatePortfolioQty l req.UserID req.StockSymbol
          (pos.quantity - req.Quantity))
      req.UserID (req.Price * (req.Quantity : ℚ)))
    ⟨req.UserID, req.StockSymbol, "SELL", req.Quantity, req.Price,
     req.Price * (req.Quantity : ℚ)⟩).1

/-- Every run of `processTrade` either fails and publishes the untouched
snapshot, or succeeds and publishes exactly the committed BUY state. -/
lemma processTrade_cases (f : Faults) (l : Ledger) (req : BuyRequest) :
    ((processTrade f l req).1.Success = false ∧
      (processTrade f l req).2 = l) ∨
    ((processTrade f l req).1.Success = true ∧
      processTrade f l req =
        (⟨(l.trades.length : Int) + 1, true, "",
          req.Price * (req.Quantity : ℚ)⟩, buyCommitted l req)) := by
  simp only [processTrade]
  repeat' split
  all_goals first
    | exact Or.inl ⟨rfl, rfl⟩
    | exact Or.inr ⟨rfl, rfl⟩

/-- Every run of `SellStock` either fails and publishes the untouched
snapshot, or succeeds — in which case a position with enough shares existed
and exactly the committed SELL state is published. -/
lemma sellStock_cases (f : Faults) (l : Ledger) (req : BuyRequest) :
    ((SellStock f l req).1.isOk = false ∧ (SellStock f l req).2 = l) ∨
    (∃ pos, l.portfolios req.UserID req.StockSymbol = some pos ∧
      ¬ pos.quantity < req.Quantity ∧
      SellStock f l req =
        (SellOutcome.ok ((l.trades.length : Int) + 1)
          (req.Price * (req.Quantity : ℚ)),
         sellCommitted l req pos)) := by
  simp only [SellStock]
  repeat' split
  all_goals first
    | exact Or.inl ⟨rfl, rfl⟩
    | (refine Or.inr ⟨_, ‹_›, ‹_›, ?_⟩
       simp only [sellCommitted]
       split <;> first | rfl | omega)

/-- The BUY trade record of a request. -/
def buyRecord (req : BuyRequest) : Trade :=
  ⟨req.UserID, req.StockSymbol, "BUY", req.Quantity, req.Price,
   req.Price * (req.Quantity : ℚ)⟩

/-- The SELL trade record of a request. -/
def sellRecord (req : BuyRequest) : Trade :=
  ⟨req.UserID, req.StockSymbol, "SELL", req.Quantity, req.Price,
   req.Price * (req.Quantity : ℚ)⟩

lemma debitAccount_trades (l : Ledger) (uid : Int) (amt : ℚ) :
    (debitAccount l uid amt).trades = l.trades := rfl

lemma creditAccount_trades (l : Ledger) (uid : Int) (amt : ℚ) :
    (creditAccount l uid amt).trades = l.trades := rfl

lemma upsertPortfolio_trades (l : Ledger) (uid : Int) (sym : String)
    (qty : Int) (price : ℚ) :
    (upsertPortfolio l uid sym qty price).trades = l.trades := rfl

lemma deletePortfolio_trades (l : Ledger) (uid : Int) (sym : String) :
    (deletePortfolio l uid sym).trades = l.trades := rfl

lemma updatePortfolioQty_trades (l : Ledger) (uid : Int) (sym : String)
    (q : Int) : (updatePortfolioQty l uid sym q).trades = l.trades := rfl

lemma buyCommitted_trades (l : Ledger) (req : BuyRequest) :
    (buyCommitted l req).trades = l.trades ++ [buyRecord req] := rfl

lemma buyCommitted_cash (l : Ledger) (req : BuyRequest) :
    (buyCommitted l req).cash_balance req.UserID =
      (l.cash_balance req.UserID).map
        (fun b => b - req.Price * (req.Quantity : ℚ)) := by
  simp [buyCommitted, appendTrade, upsertPortfolio, debitAccount]

lemma buyCommitted_portfolio (l : Ledger) (req : BuyRequest) :
    (buyCommitted l req).portfolios req.UserID req.StockSymbol =
      (match l.portfolios req.UserID req.StockSymbol with
       | none => some ⟨req.Quantity, req.Price⟩
       | some p => some ⟨p.quantity + req.Quantity,
           (p.avg_purchase_price * (p.quantity : ℚ) +
            req.Price * (req.Quantity : ℚ)) /
             ((p.quantity : ℚ) + (req.Quantity : ℚ))⟩) := by
  simp [buyCommitted, appendTrade, upsertPortfolio, debitAccount]

lemma sellCommitted_trades (l : Ledger) (req : BuyRequest) (pos : Position) :
    (sellCommitted l req pos).trades = l.trades ++ [sellRecord req] := by
  unfold sellCommitted
  split <;> rfl

lemma sellCommitted_cash (l : Ledger) (req : BuyRequest) (pos : Position) :
    (sellCommitted l req pos).cash_balance req.UserID =
      (l.cash_balance req.UserID).map
        (fun b => b + req.Price * (req.Quantity : ℚ)) := by
  unfold sellCommitted
  split <;>
    simp [appendTrade, creditAccount, deletePortfolio, updatePortfolioQty]

lemma sellCommitted_portfolio (l : Ledger) (req : BuyRequest)
    (pos : Position) :
    (sellCommitted l req pos).portfolios req.UserID req.StockSymbol =
      (if pos.quantity - req.Quantity = 0 then none
       else (l.portfolios req.UserID req.StockSymbol).map
         (fun p => ⟨pos.quantity - req.Quantity, p.avg_purchase_price⟩)) := by
  unfold sellCommitted
  split <;>
    simp_all [appendTrade, creditAccount, deletePortfolio,
      updatePortfolioQty]

/-- With no store fault, an account with sufficient funds makes the BUY
succeed and commit. -/
lemma processTrade_noFaults_ok (l : Ledger) (req : BuyRequest) (bal : ℚ)
    (hacc : l.cash_balance req.UserID = some bal)
    (hge : ¬ bal < req.Price * (req.Quantity : ℚ)) :
    processTrade noFaults l req =
      (⟨(l.trades.length : Int) + 1, true, "",
        req.Price * (req.Quantity : ℚ)⟩, buyCommitted l req) := by
  simp [processTrade, noFaults, Txn.begin, Txn.exec, Txn.commit, hacc, hge,
    buyCommitted, appendTrade, upsertPortfolio_trades, debitAccount_trades]

/-- With no store fault, a position with enough shares makes the SELL
succeed and commit. -/
lemma sellStock_noFaults_ok (l : Ledger) (req : BuyRequest) (pos : Position)
    (hpos : l.portfolios req.UserID req.StockSymbol = some pos)
    (hq : ¬ pos.quantity < req.Quantity) :
    SellStock noFaults l req =
      (SellOutcome.ok ((l.trades.length : Int) + 1)
        (req.Price * (req.Quantity : ℚ)), sellCommitted l req pos) := by
  simp only [SellStock, noFaults, Txn.begin, hpos, hq]
  simp [sellCommitted, Txn.exec, Txn.commit, appendTrade, apply_ite,
    creditAccount_trades, deletePortfolio_trades, updatePortfolioQty_trades]

/-! ## Concrete fixtures used by the witnesses -/

/-- A ledger with user 1 holding 10000 cash and 10 AAPL at 150. -/
def L0 : Ledger :=
  ⟨fun u => if u = 1 then some 10000 else none,
   fun u s => if u = 1 ∧ s = "AAPL" then some ⟨10, 150⟩ else none, []⟩

/-- A ledger with user 1 holding 10000 cash and no positions. -/
def L1 : Ledger :=
  ⟨fun u => if u = 1 then some 10000 else none, fun _ _ => none, []⟩

/-- A fault oracle where only the final commit fails. -/
def commitFault : Faults := ⟨false, false, false, false, false, true⟩

/-! ## Claim theorems -/

/-- C2: for every order (BUY via `processTrade`, SELL via `SellStock`) and
every failure outcome — begin failed, store read error, account or position
not found, insufficient funds or shares, failed balance/position/trade
write, failed commit — the published ledger is exactly the ledger before
the order began; and on success the published ledger is exactly the
committed unit in which the trade record is appended together with the
balance and position mutations. -/
theorem trade_atomicity (f : Faults) (l : Ledger) (req : BuyRequest) :
    ((processTrade f l req).1.Success = false →
      (processTrade f l req).2 = l) ∧
    ((processTrade f l req).1.Success = true →
      (processTrade f l req).2 = buyCommitted l req) ∧
    ((SellStock f l req).1.isOk = false → (SellStock f l req).2 = l) ∧
    ((SellStock f l req).1.isOk = true →
      ∃ pos, l.portfolios req.UserID req.StockSymbol = some pos ∧
        (SellStock f l req).2 = sellCommitted l req pos) := by
  refine ⟨?_, ?_, ?_, ?_⟩
  · intro h
    rcases processTrade_cases f l req with ⟨_, h2⟩ | ⟨h1, _⟩
    · exact h2
    · rw [h1] at h; cases h
  · intro h
    rcases processTrade_cases f l req with ⟨h1, _⟩ | ⟨_, h2⟩
    · rw [h1] at h; cases h
    · rw [h2]
  · intro h
    rcases sellStock_cases f l req with ⟨_, h2⟩ | ⟨pos, _, _, h2⟩
    · exact h2
    · rw [h2] at h; simp [SellOutcome.isOk] at h
  · intro h
    rcases sellStock_cases f l req with ⟨h1, _⟩ | ⟨pos, hp, _, h2⟩
    · rw [h1] at h; cases h
    · exact ⟨pos, hp, by rw [h2]⟩

/-- Witness for C2: a commit failure on a concrete funded BUY publishes the
unchanged ledger. -/
theorem trade_atomicity_witness :
    (processTrade commitFault L0 ⟨1, "AAPL", 10, 150⟩).1.Success = false ∧
    (processTrade commitFault L0 ⟨1, "AAPL", 10, 150⟩).2 = L0 :=
  ⟨by norm_num [processTrade, commitFault, L0, Txn.begin, Txn.exec,
     Txn.rollback, TradeResult.fail, debitAccount, upsertPortfolio,
     appendTrade],
   (trade_atomicity commitFault L0 ⟨1, "AAPL", 10, 150⟩).1
     (by norm_num [processTrade, commitFault, L0, Txn.begin, Txn.exec,
       Txn.rollback, TradeResult.fail, debitAccount, upsertPortfolio,
       appendTrade])⟩

/-- C3: a first BUY creates the position with quantity = qty and
avg_cost = price; a BUY into an existing position (old_qty, old_avg) yields
average cost (old_avg·old_qty + price·qty)/(old_qty + qty) and quantity
old_qty + qty; two successive successful BUYs Q1@P1 then Q2@P2 starting
from no position yield quantity Q1+Q2 and average cost
(P1·Q1 + P2·Q2)/(Q1+Q2). -/
theorem buy_weighted_average :
    (∀ (l : Ledger) (req : BuyRequest) (bal : ℚ),
      l.cash_balance req.UserID = some bal →
      l.portfolios req.UserID req.StockSymbol = none →
      ¬ bal < req.Price * (req.Quantity : ℚ) →
      (processTrade noFaults l req).2.portfolios req.UserID req.StockSymbol
        = some ⟨req.Quantity, req.Price⟩) ∧
    (∀ (l : Ledger) (req : BuyRequest) (bal : ℚ) (p : Position),
      l.cash_balance req.UserID = some bal →
      l.portfolios req.UserID req.StockSymbol = some p →
      ¬ bal < req.Price * (req.Quantity : ℚ) →
      (processTrade noFaults l req).2.portfolios req.UserID req.StockSymbol
        = some ⟨p.quantity + req.Quantity,
            (p.avg_purchase_price * (p.quantity : ℚ) +
             req.Price * (req.Quantity : ℚ)) /
              ((p.quantity : ℚ) + (req.Quantity : ℚ))⟩) ∧
    (∀ (l : Ledger) (u : Int) (s : String) (q1 q2 : Int) (p1 p2 bal : ℚ),
      0 < q1 → 0 < q2 → 0 < p1 → 0 < p2 →
      l.cash_balance u = some bal →
      l.portfolios u s = none →
      p1 * (q1 : ℚ) + p2 * (q2 : ℚ) ≤ bal →
      (processTrade noFaults (processTrade noFaults l ⟨u, s, q1, p1⟩).2
          ⟨u, s, q2, p2⟩).2.portfolios u s
        = some ⟨q1 + q2,
            (p1 * (q1 : ℚ) + p2 * (q2 : ℚ)) / ((q1 : ℚ) + (q2 : ℚ))⟩) := by
  refine ⟨?_, ?_, ?_⟩
  · intro l req bal hacc hnone hge
    have e := processTrade_noFaults_ok l req bal hacc hge
    have h2 : (processTrade noFaults l req).2 = buyCommitted l req := by
      rw [e]
    rw [h2, buyCommitted_portfolio, hnone]
  · intro l req bal p hacc hpos hge
    have e := processTrade_noFaults_ok l req bal hacc hge
    have h2 : (processTrade noFaults l req).2 = buyCommitted l req := by
      rw [e]
    rw [h2, buyCommitted_portfolio, hpos]
  · intro l u s q1 q2 p1 p2 bal hq1 hq2 hp1 hp2 hacc hnone hfunds
    have hq1' : (0 : ℚ) < (q1 : ℚ) := by exact_mod_cast hq1
    have hq2' : (0 : ℚ) < (q2 : ℚ) := by exact_mod_cast hq2
    have hpq1 : 0 < p1 * (q1 : ℚ) := mul_pos hp1 hq1'
    have hpq2 : 0 < p2 * (q2 : ℚ) := mul_pos hp2 hq2'
    have hc1 : ¬ bal < p1 * (q1 : ℚ) := not_lt.2 (by linarith)
    have e1 := processTrade_noFaults_ok l ⟨u, s, q1, p1⟩ bal hacc hc1
    have l1def : (processTrade noFaults l ⟨u, s, q1, p1⟩).2 =
        buyCommitted l ⟨u, s, q1, p1⟩ := by rw [e1]
    have hacc1 : (buyCommitted l ⟨u, s, q1, p1⟩).cash_balance u =
        some (bal - p1 * (q1 : ℚ)) := by
      have h := buyCommitted_cash l ⟨u, s, q1, p1⟩
      simp only [hacc, Option.map_some] at h
      exact h
    have hpos1 : (buyCommitted l ⟨u, s, q1, p1⟩).portfolios u s =
        some ⟨q1, p1⟩ := by
      have h := buyCommitted_portfolio l ⟨u, s, q1, p1⟩
      simp only [hnone] at h
      exact h
    have hc2 : ¬ (bal - p1 * (q1 : ℚ)) < p2 * (q2 : ℚ) :=
      not_lt.2 (by linarith)
    have e2 := processTrade_noFaults_ok (buyCommitted l ⟨u, s, q1, p1⟩)
      ⟨u, s, q2, p2⟩ (bal - p1 * (q1 : ℚ)) hacc1 hc2
    have l2def : (processTrade noFaults
        (buyCommitted l ⟨u, s, q1, p1⟩) ⟨u, s, q2, p2⟩).2 =
        buyCommitted (buyCommitted l ⟨u, s, q1, p1⟩) ⟨u, s, q2, p2⟩ := by
      rw [e2]
    rw [l1def, l2def, buyCommitted_portfolio, hpos1]

/-- Witness for C3: 10@150 then 5@160 from no AAPL position gives quantity
15 at average cost (150·10 + 160·5)/15. -/
theorem buy_weighted_average_witness :
    (0 : Int) < 10 ∧ (0 : Int) < 5 ∧ (0 : ℚ) < 150 ∧ (0 : ℚ) < 160 ∧
    (processTrade noFaults (processTrade noFaults L1 ⟨1, "AAPL", 10, 150⟩).2
        ⟨1, "AAPL", 5, 160⟩).2.portfolios 1 "AAPL"
      = some ⟨10 + 5,
          (150 * ((10 : Int) : ℚ) + 160 * ((5 : Int) : ℚ)) /
            (((10 : Int) : ℚ) + ((5 : Int) : ℚ))⟩ :=
  ⟨by decide, by decide, by decide, by decide,
   buy_weighted_average.2.2 L1 1 "AAPL" 10 5 150 160 10000
     (by decide) (by decide) (by decide) (by decide) (by decide) (by decide)
     (by norm_num)⟩

end StockSim

namespace StockSim

/-- C4: a BUY on an existing account with balance strictly below
quantity × price fails with the insufficient-funds classification and
publishes the unchanged ledger; otherwise the balance check passes — the
result is never the insufficient-funds failure, and with no store fault the
committed balance is the old balance minus quantity × price. -/
theorem buy_insufficient_funds (f : Faults) (l : Ledger) (req : BuyRequest)
    (bal : ℚ) (hb : f.beginFails = false) (hr : f.readFails = false)
    (hacc : l.cash_balance req.UserID = some bal) :
    (bal < req.Price * (req.Quantity : ℚ) →
      (processTrade f l req).1 = TradeResult.fail "Insufficient funds" ∧
      (processTrade f l req).2 = l) ∧
    (¬ bal < req.Price * (req.Quantity : ℚ) →
      (processTrade f l req).1.Error ≠ "Insufficient funds" ∧
      (processTrade noFaults l req).2.cash_balance req.UserID =
        some (bal - req.Price * (req.Quantity : ℚ))) := by
  constructor
  · intro hlt
    have e : processTrade f l req =
        (TradeResult.fail "Insufficient funds", l) := by
      simp [processTrade, hb, hr, hacc, hlt, Txn.begin, Txn.rollback]
    exact ⟨by rw [e], by rw [e]⟩
  · intro hge
    constructor
    · simp only [processTrade, hb, hr, hacc, Txn.begin]
      simp only [Bool.false_eq_true, if_false, if_neg hge]
      repeat' split
      all_goals simp [TradeResult.fail]
    · have e := processTrade_noFaults_ok l req bal hacc hge
      have h2 : (processTrade noFaults l req).2 = buyCommitted l req := by
        rw [e]
      rw [h2, buyCommitted_cash, hacc]
      rfl

/-- Witness for C4: buying 100 AAPL at 150 with only 10000 cash fails with
insufficient funds and leaves the ledger untouched. -/
theorem buy_insufficient_funds_witness :
    noFaults.beginFails = false ∧ noFaults.readFails = false ∧
    L1.cash_balance 1 = some 10000 ∧
    (10000 : ℚ) < 150 * ((100 : Int) : ℚ) ∧
    (processTrade noFaults L1 ⟨1, "AAPL", 100, 150⟩).1 =
      TradeResult.fail "Insufficient funds" ∧
    (processTrade noFaults L1 ⟨1, "AAPL", 100, 150⟩).2 = L1 := by
  refine ⟨rfl, rfl, by decide, by norm_num, ?_⟩
  exact (buy_insufficient_funds noFaults L1 ⟨1, "AAPL", 100, 150⟩ 10000
    rfl rfl (by decide)).1 (by norm_num)

/-- C5: a SELL with owned quantity ≥ requested succeeds; when the resulting
quantity is exactly 0 the position row is deleted, otherwise the quantity
is decremented and the average cost is unchanged; the balance is credited
by quantity × price. -/
theorem sell_success (l : Ledger) (req : BuyRequest) (pos : Position)
    (hpos : l.portfolios req.UserID req.StockSymbol = some pos)
    (hq : ¬ pos.quantity < req.Quantity) :
    (SellStock noFaults l req).1 =
      SellOutcome.ok ((l.trades.length : Int) + 1)
        (req.Price * (req.Quantity : ℚ)) ∧
    (pos.quantity - req.Quantity = 0 →
      (SellStock noFaults l req).2.portfolios req.UserID req.StockSymbol
        = none) ∧
    (pos.quantity - req.Quantity ≠ 0 →
      (SellStock noFaults l req).2.portfolios req.UserID req.StockSymbol
        = some ⟨pos.quantity - req.Quantity, pos.avg_purchase_price⟩) ∧
    (∀ bal, l.cash_balance req.UserID = some bal →
      (SellStock noFaults l req).2.cash_balance req.UserID =
        some (bal + req.Price * (req.Quantity : ℚ))) := by
  have e := sellStock_noFaults_ok l req pos hpos hq
  have h2 : (SellStock noFaults l req).2 = sellCommitted l req pos := by
    rw [e]
  refine ⟨by rw [e], ?_, ?_, ?_⟩
  · intro h0
    rw [h2, sellCommitted_portfolio, if_pos h0]
  · intro h0
    rw [h2, sellCommitted_portfolio, if_neg h0, hpos]
    rfl
  · intro bal hacc
    rw [h2, sellCommitted_cash, hacc]
    rfl

/-- Witness for C5: selling all 10 AAPL shares deletes the position row and
credits 10 × 160. -/
theorem sell_success_witness :
    L0.portfolios 1 "AAPL" = some ⟨10, 150⟩ ∧
    ¬ (10 : Int) < 10 ∧
    (SellStock noFaults L0 ⟨1, "AAPL", 10, 160⟩).2.portfolios 1 "AAPL"
      = none ∧
    (SellStock noFaults L0 ⟨1, "AAPL", 10, 160⟩).2.cash_balance 1 =
      some (10000 + 160 * ((10 : Int) : ℚ)) := by
  refine ⟨by decide, by decide, ?_, ?_⟩
  · exact (sell_success L0 ⟨1, "AAPL", 10, 160⟩ ⟨10, 150⟩ (by decide)
      (by decide)).2.1 (by decide)
  · exact (sell_success L0 ⟨1, "AAPL", 10, 160⟩ ⟨10, 150⟩ (by decide)
      (by decide)).2.2.2 10000 (by decide)

/-- C6: a SELL on an existing position owning strictly fewer shares than
requested fails with the insufficient-shares error whose message reports
both the owned and the requested quantity, and publishes the unchanged
ledger. -/
theorem sell_insufficient_shares (f : Faults) (l : Ledger)
    (req : BuyRequest) (pos : Position)
    (hb : f.beginFails = false) (hr : f.readFails = false)
    (hpos : l.portfolios req.UserID req.StockSymbol = some pos)
    (hlt : pos.quantity < req.Quantity) :
    (SellStock f l req).1 = SellOutcome.badRequest
      ("Insufficient shares. You own " ++ toString pos.quantity ++
       ", trying to sell " ++ toString req.Quantity) ∧
    (SellStock f l req).2 = l := by
  have e : SellStock f l req = (SellOutcome.badRequest
      ("Insufficient shares. You own " ++ toString pos.quantity ++
       ", trying to sell " ++ toString req.Quantity), l) := by
    simp [SellStock, hb, hr, hpos, hlt, Txn.begin, Txn.rollback]
  exact ⟨by rw [e], by rw [e]⟩

/-- Witness for C6: selling 25 AAPL while owning 10 reports both numbers in
the error message and changes nothing. -/
theorem sell_insufficient_shares_witness :
    noFaults.beginFails = false ∧ noFaults.readFails = false ∧
    L0.portfolios 1 "AAPL" = some ⟨10, 150⟩ ∧ (10 : Int) < 25 ∧
    (SellStock noFaults L0 ⟨1, "AAPL", 25, 160⟩).1 =
      SellOutcome.badRequest
        ("Insufficient shares. You own " ++ toString ((10 : Int)) ++
         ", trying to sell " ++ toString ((25 : Int))) ∧
    (SellStock noFaults L0 ⟨1, "AAPL", 25, 160⟩).2 = L0 := by
  refine ⟨rfl, rfl, by decide, by decide, ?_⟩
  exact sell_insufficient_shares noFaults L0 ⟨1, "AAPL", 25, 160⟩ ⟨10, 150⟩
    rfl rfl (by decide) (by decide)

end StockSim

namespace StockSim

/-- C7: every committed trade's record carries total amount = quantity ×
price, appended exactly once, and the same amount is reflected exactly once
in the balance of the same committed unit — a debit for a BUY, a credit for
a SELL. -/
theorem committed_trade_total (f : Faults) (l : Ledger) (req : BuyRequest) :
    ((processTrade f l req).1.Success = true →
      ∃ t, (processTrade f l req).2.trades = l.trades ++ [t] ∧
        t.total_amount = (t.quantity : ℚ) * t.price ∧
        t.trade_type = "BUY" ∧
        ∀ bal, l.cash_balance req.UserID = some bal →
          (processTrade f l req).2.cash_balance req.UserID =
            some (bal - t.total_amount)) ∧
    ((SellStock f l req).1.isOk = true →
      ∃ t, (SellStock f l req).2.trades = l.trades ++ [t] ∧
        t.total_amount = (t.quantity : ℚ) * t.price ∧
        t.trade_type = "SELL" ∧
        ∀ bal, l.cash_balance req.UserID = some bal →
          (SellStock f l req).2.cash_balance req.UserID =
            some (bal + t.total_amount)) := by
  constructor
  · intro h
    rcases processTrade_cases f l req with ⟨h1, _⟩ | ⟨_, h2⟩
    · rw [h1] at h; cases h
    · have hsnd : (processTrade f l req).2 = buyCommitted l req := by
        rw [h2]
      refine ⟨buyRecord req, ?_, ?_, rfl, ?_⟩
      · rw [hsnd, buyCommitted_trades]
      · show req.Price * (req.Quantity : ℚ) = (req.Quantity : ℚ) * req.Price
        ring
      · intro bal hacc
        rw [hsnd, buyCommitted_cash, hacc]
        rfl
  · intro h
    rcases sellStock_cases f l req with ⟨h1, _⟩ | ⟨pos, _, _, h2⟩
    · rw [h1] at h; cases h
    · have hsnd : (SellStock f l req).2 = sellCommitted l req pos := by
        rw [h2]
      refine ⟨sellRecord req, ?_, ?_, rfl, ?_⟩
      · rw [hsnd, sellCommitted_trades]
      · show req.Price * (req.Quantity : ℚ) = (req.Quantity : ℚ) * req.Price
        ring
      · intro bal hacc
        rw [hsnd, sellCommitted_cash, hacc]
        rfl

/-- Witness for C7: a concrete successful BUY appends one record whose
total equals quantity × price and whose amount is the exact debit. -/
theorem committed_trade_total_witness :
    (processTrade noFaults L1 ⟨1, "AAPL", 10, 150⟩).1.Success = true ∧
    (∃ t, (processTrade noFaults L1 ⟨1, "AAPL", 10, 150⟩).2.trades =
        L1.trades ++ [t] ∧
      t.total_amount = (t.quantity : ℚ) * t.price ∧
      t.trade_type = "BUY" ∧
      ∀ bal, L1.cash_balance 1 = some bal →
        (processTrade noFaults L1 ⟨1, "AAPL", 10, 150⟩).2.cash_balance 1 =
          some (bal - t.total_amount)) := by
  have hs : (processTrade noFaults L1 ⟨1, "AAPL", 10, 150⟩).1.Success =
      true := by
    rw [processTrade_noFaults_ok L1 ⟨1, "AAPL", 10, 150⟩ 10000 (by decide)
      (by norm_num)]
  exact ⟨hs, (committed_trade_total noFaults L1 ⟨1, "AAPL", 10, 150⟩).1 hs⟩

/-- C10: every order submitted through `SubmitTrade` is executed as a BUY —
any trade record it adds has side BUY and, on success, the account is
debited (never credited) by quantity × price; SELL is reachable only
through the separate direct handler. -/
theorem submitTrade_only_buys (f : Faults) (l : Ledger) (req : BuyRequest) :
    (∀ t, t ∈ (SubmitTrade f l req).2.trades →
      t ∈ l.trades ∨ t.trade_type = "BUY") ∧
    ((SubmitTrade f l req).1.Success = true →
      ∀ bal, l.cash_balance req.UserID = some bal →
        (SubmitTrade f l req).2.cash_balance req.UserID =
          some (bal - req.Price * (req.Quantity : ℚ))) := by
  constructor
  · intro t ht
    rcases processTrade_cases f l req with ⟨_, h2⟩ | ⟨_, h2⟩
    · left
      rw [show (SubmitTrade f l req).2 = l from h2] at ht
      exact ht
    · have hsnd : (SubmitTrade f l req).2 = buyCommitted l req := by
        show (processTrade f l req).2 = buyCommitted l req
        rw [h2]
      rw [hsnd, buyCommitted_trades, List.mem_append] at ht
      rcases ht with h | h
      · exact Or.inl h
      · right
        rw [List.mem_singleton] at h
        rw [h]
        rfl
  · intro h bal hacc
    rcases processTrade_cases f l req with ⟨h1, _⟩ | ⟨_, h2⟩
    · rw [show (SubmitTrade f l req).1.Success = false from h1] at h
      cases h
    · have hsnd : (SubmitTrade f l req).2 = buyCommitted l req := by
        show (processTrade f l req).2 = buyCommitted l req
        rw [h2]
      rw [hsnd, buyCommitted_cash, hacc]
      rfl

/-- Witness for C10: the record added by a concrete submitted order is a
BUY. -/
theorem submitTrade_only_buys_witness :
    buyRecord ⟨1, "AAPL", 10, 150⟩ ∈
      (SubmitTrade noFaults L1 ⟨1, "AAPL", 10, 150⟩).2.trades ∧
    (buyRecord ⟨1, "AAPL", 10, 150⟩ ∈ L1.trades ∨
      (buyRecord ⟨1, "AAPL", 10, 150⟩).trade_type = "BUY") := by
  have hmem : buyRecord ⟨1, "AAPL", 10, 150⟩ ∈
      (SubmitTrade noFaults L1 ⟨1, "AAPL", 10, 150⟩).2.trades := by
    have e : (SubmitTrade noFaults L1 ⟨1, "AAPL", 10, 150⟩).2 =
        buyCommitted L1 ⟨1, "AAPL", 10, 150⟩ := by
      show (processTrade noFaults L1 ⟨1, "AAPL", 10, 150⟩).2 = _
      rw [processTrade_noFaults_ok L1 ⟨1, "AAPL", 10, 150⟩ 10000 (by decide)
        (by norm_num)]
    rw [e, buyCommitted_trades]
    simp
  exact ⟨hmem,
    (submitTrade_only_buys noFaults L1 ⟨1, "AAPL", 10, 150⟩).1 _ hmem⟩

end StockSim

namespace StockSim

/-- Conservation of `countP` under `List.set`. -/
lemma countP_set {α : Type} (p : α → Bool) (l : List α) (i : Nat) (a b : α)
    (h : l[i]? = some b) :
    (l.set i a).countP p + (if p b then 1 else 0) =
      l.countP p + (if p a then 1 else 0) := by
  induction l generalizing i with
  | nil => simp at h
  | cons x xs ih =>
    cases i with
    | zero =>
      simp at h
      subst h
      simp [List.countP_cons]
      split <;> split <;> omega
    | succ n =>
      simp at h
      have := ih n h
      simp [List.countP_cons]
      split <;> omega

/-- Every pool step conserves: initial queue length = queued + in-flight +
delivered. -/
lemma pstep_conserves (n0 : Nat) (s s' : PoolState) (h : PStep s s')
    (hi : n0 = s.queue.length + busyCount s + s.delivered.length) :
    n0 = s'.queue.length + busyCount s' + s'.delivered.length := by
  cases h with
  | stop hs => exact hi
  | dequeue i o rest hw hq =>
    have hc := countP_set WStatus.isBusy s.workers i (WStatus.busy o)
      WStatus.idle hw
    simp [WStatus.isBusy] at hc
    simp only [busyCount] at hi ⊢
    rw [hq] at hi
    simp only [List.length_cons] at hi
    simp only [hc]
    omega
  | finish i o hw =>
    have hc := countP_set WStatus.isBusy s.workers i WStatus.idle
      (WStatus.busy o) hw
    simp [WStatus.isBusy] at hc
    simp only [busyCount] at hi ⊢
    simp only [List.length_append, List.length_cons, List.length_nil]
    omega
  | exit i hw hs =>
    have hc := countP_set WStatus.isBusy s.workers i WStatus.exited
      WStatus.idle hw
    simp [WStatus.isBusy] at hc
    simp only [busyCount] at hi ⊢
    omega

/-- Along every reachable pool state, initial queue length = queued +
in-flight + delivered. -/
lemma preach_conservation (q0 : List Nat) (n : Nat) (s : PoolState)
    (h : PReach ⟨q0, false, List.replicate n WStatus.idle, []⟩ s) :
    q0.length = s.queue.length + busyCount s + s.delivered.length := by
  induction h with
  | refl =>
    have hz : busyCount ⟨q0, false, List.replicate n WStatus.idle, []⟩
        = 0 := by
      refine List.countP_eq_zero.2 ?_
      intro w hw
      rw [List.eq_of_mem_replicate hw]
      simp [WStatus.isBusy]
    simp [hz]
  | tail hab hbc ih => exact pstep_conserves _ _ _ hbc ih

/-- C8 (amended): when `Stop()` returns, no dequeued-but-unfinished order
is outstanding — every order ever dequeued has had its result delivered —
for any worker count; but orders still sitting in the queue when `Stop()`
is called may remain there undelivered (see the counterexample), so they
are not drained. -/
theorem stop_waits_for_inflight (q0 : List Nat) (n : Nat) (s : PoolState)
    (h : PReach ⟨q0, false, List.replicate n WStatus.idle, []⟩ s)
    (hstop : stopReturned s) :
    busyCount s = 0 ∧
    q0.length = s.queue.length + s.delivered.length := by
  have hcons := preach_conservation q0 n s h
  have hb : busyCount s = 0 := by
    refine List.countP_eq_zero.2 ?_
    intro w hw
    rw [hstop w hw]
    simp [WStatus.isBusy]
  exact ⟨hb, by omega⟩

/-- Witness for C8: one worker dequeues and finishes order 7, then stop is
called and the worker exits; at stop-return nothing is in flight and the
dequeued order was delivered. -/
theorem stop_waits_for_inflight_witness :
    PReach ⟨[7], false, List.replicate 1 WStatus.idle, []⟩
      ⟨[], true, [WStatus.exited], [7]⟩ ∧
    stopReturned ⟨[], true, [WStatus.exited], [7]⟩ ∧
    (busyCount ⟨[], true, [WStatus.exited], [7]⟩ = 0 ∧
      ([7] : List Nat).length =
        (⟨[], true, [WStatus.exited], [7]⟩ : PoolState).queue.length +
        (⟨[], true, [WStatus.exited], [7]⟩ : PoolState).delivered.length) := by
  have hreach : PReach ⟨[7], false, List.replicate 1 WStatus.idle, []⟩
      ⟨[], true, [WStatus.exited], [7]⟩ :=
    Relation.ReflTransGen.head (PStep.dequeue _ 0 7 [] rfl rfl)
      (Relation.ReflTransGen.head (PStep.finish _ 0 7 rfl)
        (Relation.ReflTransGen.head (PStep.stop _ rfl)
          (Relation.ReflTransGen.head (PStep.exit _ 0 rfl rfl)
            Relation.ReflTransGen.refl)))
  have hsr : stopReturned ⟨[], true, [WStatus.exited], [7]⟩ := by
    intro w hw
    simpa using hw
  exact ⟨hreach, hsr, stop_waits_for_inflight [7] 1 _ hreach hsr⟩

/-- Counterexample for C8 as stated: with one queued order, the worker's
`select` may take the closed stop channel and exit; `Stop()` then returns
with the order still in the queue, never delivered — it is silently
dropped. -/
theorem stop_drops_queued_counterexample :
    PReach ⟨[0], false, List.replicate 1 WStatus.idle, []⟩
      ⟨[0], true, [WStatus.exited], []⟩ ∧
    stopReturned ⟨[0], true, [WStatus.exited], []⟩ ∧
    (⟨[0], true, [WStatus.exited], []⟩ : PoolState).queue = [0] ∧
    (⟨[0], true, [WStatus.exited], []⟩ : PoolState).delivered = [] := by
  refine ⟨?_, ?_, rfl, rfl⟩
  · exact Relation.ReflTransGen.head (PStep.stop _ rfl)
      (Relation.ReflTransGen.head (PStep.exit _ 0 rfl rfl)
        Relation.ReflTransGen.refl)
  · intro w hw
    simpa using hw

/-- A manager with an entry for user 1 whose mutex is unlocked. -/
def pmUnlocked : PortfolioManager :=
  ⟨fun u => if u = 1 then some none else none⟩

/-- A manager with an entry for user 1 whose mutex is currently locked by
goroutine 7. -/
def pmHeldByOther : PortfolioManager :=
  ⟨fun u => if u = 1 then some (some 7) else none⟩

/-- Counterexample for C9 as stated: a release by a caller that does not
hold the user's lock silently succeeds in both remaining cases.  When no
lock entry was ever created, `UnlockUser` is a silent no-op; and when the
entry exists but the mutex is locked by a different goroutine (here
goroutine 7, while the caller is any other goroutine), the unlock silently
succeeds and frees the other goroutine's lock — `sync.Mutex` carries no
owner, so neither case is detectable. -/
theorem unlock_not_held_silent_counterexample :
    (NewPortfolioManager.userLocks 1 = none ∧
      (UnlockUser NewPortfolioManager 1).1 = UnlockOutcome.noop ∧
      (UnlockUser NewPortfolioManager 1).1 ≠ UnlockOutcome.panicked ∧
      (UnlockUser NewPortfolioManager 1).2 = NewPortfolioManager) ∧
    (pmHeldByOther.userLocks 1 = some (some 7) ∧ (7 : Nat) ≠ 0 ∧
      (UnlockUser pmHeldByOther 1).1 = UnlockOutcome.ok ∧
      (UnlockUser pmHeldByOther 1).1 ≠ UnlockOutcome.panicked ∧
      (UnlockUser pmHeldByOther 1).2.userLocks 1 = some none) :=
  ⟨⟨rfl, rfl, by decide, rfl⟩,
   ⟨rfl, by decide, rfl, by decide, rfl⟩⟩

/-- C9 (amended): releasing a lock not held by the caller is detectable in
exactly one case — the entry exists and its mutex is not locked, where
`UnlockUser` panics, so a plain double release on an existing entry is
detected.  In both other cases it silently succeeds: when no lock entry for
the user was ever created the call is a silent no-op, and when the mutex is
locked by a different goroutine the unlock succeeds anyway and frees that
goroutine's lock, since `sync.Mutex` has no owner tracking. -/
theorem unlockUser_detectability (pm : PortfolioManager) (uid : Int) :
    (pm.userLocks uid = some none →
      (UnlockUser pm uid).1 = UnlockOutcome.panicked ∧
      (UnlockUser pm uid).2 = pm) ∧
    (pm.userLocks uid = none →
      (UnlockUser pm uid).1 = UnlockOutcome.noop ∧
      (UnlockUser pm uid).2 = pm) ∧
    (∀ g : Nat, pm.userLocks uid = some (some g) →
      (UnlockUser pm uid).1 = UnlockOutcome.ok ∧
      (UnlockUser pm uid).2.userLocks uid = some none) := by
  refine ⟨?_, ?_, ?_⟩
  · intro h
    simp [UnlockUser, h]
  · intro h
    simp [UnlockUser, h]
  · intro g h
    simp [UnlockUser, h]

/-- Witness for C9 (amended): double release on an existing unlocked entry
panics. -/
theorem unlockUser_detectability_witness :
    pmUnlocked.userLocks 1 = some none ∧
    ((UnlockUser pmUnlocked 1).1 = UnlockOutcome.panicked ∧
      (UnlockUser pmUnlocked 1).2 = pmUnlocked) :=
  ⟨by decide, (unlockUser_detectability pmUnlocked 1).1 (by decide)⟩

end StockSim

namespace StockSim

/-- Whether an order's next action lies inside the lock-protected region
for user `v`: after its `acquire`, up to and including its `release`. -/
def critHead (v : Int) : List LAction → Bool
  | LAction.beginExec u :: _ => u == v
  | LAction.endExec u :: _ => u == v
  | LAction.release u :: _ => u == v
  | _ => false

/-- What can remain of a worker-pool order's `buyProg` after any number of
steps. -/
def buySuffixes (u : Int) : List (List LAction) :=
  [buyProg u,
   [LAction.beginExec u, LAction.endExec u, LAction.release u],
   [LAction.endExec u, LAction.release u],
   [LAction.release u],
   []]

/-- Every in-flight order is a worker-pool order: its remaining program is
a suffix of some user's `buyProg`. -/
@[reducible] def WF (s : ConcState) : Prop :=
  ∀ (i : Nat) (p : List LAction),
    s.orders[i]? = some p → ∃ u, p ∈ buySuffixes u

/-- Lock soundness: a free user lock means no order is inside that user's
critical region, and at most one order is inside it at any time. -/
@[reducible] def MutexInv (s : ConcState) : Prop :=
  ∀ v : Int,
    (s.lockHeld v = false →
      ∀ (i : Nat) (p : List LAction),
        s.orders[i]? = some p → critHead v p = false) ∧
    (∀ (i j : Nat) (pi pj : List LAction),
      s.orders[i]? = some pi → s.orders[j]? = some pj →
      critHead v pi = true → critHead v pj = true → i = j)

lemma acquire_shape {u w : Int} {rest : List LAction}
    (h : (LAction.acquire u :: rest) ∈ buySuffixes w) :
    u = w ∧ rest = [LAction.beginExec u, LAction.endExec u,
      LAction.release u] := by
  simp [buySuffixes, buyProg] at h
  exact ⟨h.1, by rw [h.2, h.1]⟩

lemma beginExec_shape {u w : Int} {rest : List LAction}
    (h : (LAction.beginExec u :: rest) ∈ buySuffixes w) :
    u = w ∧ rest = [LAction.endExec u, LAction.release u] := by
  simp [buySuffixes, buyProg] at h
  exact ⟨h.1, by rw [h.2, h.1]⟩

lemma endExec_shape {u w : Int} {rest : List LAction}
    (h : (LAction.endExec u :: rest) ∈ buySuffixes w) :
    u = w ∧ rest = [LAction.release u] := by
  simp [buySuffixes, buyProg] at h
  exact ⟨h.1, by rw [h.2, h.1]⟩

lemma release_shape {u w : Int} {rest : List LAction}
    (h : (LAction.release u :: rest) ∈ buySuffixes w) :
    u = w ∧ rest = [] := by
  simp [buySuffixes, buyProg] at h
  exact ⟨h.1, h.2⟩

/-- One scheduler step preserves well-formedness and lock soundness. -/
lemma cstep_preserves {s s' : ConcState} (h : CStep s s')
    (hwf : WF s) (hinv : MutexInv s) : WF s' ∧ MutexInv s' := by
  cases h with
  | acquire i u rest hi hfree =>
    obtain ⟨w, hmem⟩ := hwf i _ hi
    obtain ⟨hw, hrest⟩ := acquire_shape hmem
    clear hw hmem
    subst hrest
    have hilen : i < s.orders.length := (List.getElem?_eq_some.1 hi).1
    constructor
    · intro j p hj
      by_cases hji : j = i
      · rw [hji, List.getElem?_set_self hilen] at hj
        cases hj
        exact ⟨u, by simp [buySuffixes]⟩
      · rw [List.getElem?_set_ne (fun he => hji he.symm)] at hj
        exact hwf j p hj
    · intro v
      constructor
      · intro hlockv j p hj
        by_cases hvu : v = u
        · simp [hvu] at hlockv
        · have hlv : s.lockHeld v = false := by
            simpa [hvu] using hlockv
          by_cases hji : j = i
          · rw [hji, List.getElem?_set_self hilen] at hj
            cases hj
            simp [critHead]
            omega
          · rw [List.getElem?_set_ne (fun he => hji he.symm)] at hj
            exact (hinv v).1 hlv j p hj
      · intro j k pj pk hj hk hcj hck
        by_cases hvu : v = u
        · by_cases hji : j = i
          · by_cases hki : k = i
            · rw [hji, hki]
            · exfalso
              rw [List.getElem?_set_ne (fun he => hki he.symm)] at hk
              have hf := (hinv v).1 (by rw [hvu]; exact hfree) k pk hk
              rw [hck] at hf
              cases hf
          · exfalso
            rw [List.getElem?_set_ne (fun he => hji he.symm)] at hj
            have hf := (hinv v).1 (by rw [hvu]; exact hfree) j pj hj
            rw [hcj] at hf
            cases hf
        · by_cases hji : j = i
          · exfalso
            rw [hji, List.getElem?_set_self hilen] at hj
            cases hj
            simp [critHead] at hcj
            omega
          · by_cases hki : k = i
            · exfalso
              rw [hki, List.getElem?_set_self hilen] at hk
              cases hk
              simp [critHead] at hck
              omega
            · rw [List.getElem?_set_ne (fun he => hji he.symm)] at hj
              rw [List.getElem?_set_ne (fun he => hki he.symm)] at hk
              exact (hinv v).2 j k pj pk hj hk hcj hck
  | beginExec i u rest hi =>
    obtain ⟨w, hmem⟩ := hwf i _ hi
    obtain ⟨hw, hrest⟩ := beginExec_shape hmem
    clear hw hmem
    subst hrest
    have hilen : i < s.orders.length := (List.getElem?_eq_some.1 hi).1
    have hsame : ∀ v, critHead v [LAction.endExec u, LAction.release u] =
        critHead v (LAction.beginExec u ::
          [LAction.endExec u, LAction.release u]) := by
      intro v
      simp [critHead]
    constructor
    · intro j p hj
      by_cases hji : j = i
      · rw [hji, List.getElem?_set_self hilen] at hj
        cases hj
        exact ⟨u, by simp [buySuffixes]⟩
      · rw [List.getElem?_set_ne (fun he => hji he.symm)] at hj
        exact hwf j p hj
    · intro v
      constructor
      · intro hlockv j p hj
        by_cases hji : j = i
        · rw [hji, List.getElem?_set_self hilen] at hj
          cases hj
          rw [hsame v]
          exact (hinv v).1 hlockv i _ hi
        · rw [List.getElem?_set_ne (fun he => hji he.symm)] at hj
          exact (hinv v).1 hlockv j p hj
      · intro j k pj pk hj hk hcj hck
        by_cases hji : j = i
        · by_cases hki : k = i
          · rw [hji, hki]
          · rw [hji, List.getElem?_set_self hilen] at hj
            cases hj
            rw [List.getElem?_set_ne (fun he => hki he.symm)] at hk
            rw [hji]
            exact (hinv v).2 i k _ pk hi hk
              (by rw [← hsame v]; exact hcj) hck
        · by_cases hki : k = i
          · rw [hki, List.getElem?_set_self hilen] at hk
            cases hk
            rw [List.getElem?_set_ne (fun he => hji he.symm)] at hj
            rw [hki]
            exact (hinv v).2 j i pj _ hj hi hcj
              (by rw [← hsame v]; exact hck)
          · rw [List.getElem?_set_ne (fun he => hji he.symm)] at hj
            rw [List.getElem?_set_ne (fun he => hki he.symm)] at hk
            exact (hinv v).2 j k pj pk hj hk hcj hck
  | endExec i u rest hi =>
    obtain ⟨w, hmem⟩ := hwf i _ hi
    obtain ⟨hw, hrest⟩ := endExec_shape hmem
    clear hw hmem
    subst hrest
    have hilen : i < s.orders.length := (List.getElem?_eq_some.1 hi).1
    have hsame : ∀ v, critHead v [LAction.release u] =
        critHead v (LAction.endExec u :: [LAction.release u]) := by
      intro v
      simp [critHead]
    constructor
    · intro j p hj
      by_cases hji : j = i
      · rw [hji, List.getElem?_set_self hilen] at hj
        cases hj
        exact ⟨u, by simp [buySuffixes]⟩
      · rw [List.getElem?_set_ne (fun he => hji he.symm)] at hj
        exact hwf j p hj
    · intro v
      constructor
      · intro hlockv j p hj
        by_cases hji : j = i
        · rw [hji, List.getElem?_set_self hilen] at hj
          cases hj
          rw [hsame v]
          exact (hinv v).1 hlockv i _ hi
        · rw [List.getElem?_set_ne (fun he => hji he.symm)] at hj
          exact (hinv v).1 hlockv j p hj
      · intro j k pj pk hj hk hcj hck
        by_cases hji : j = i
        · by_cases hki : k = i
          · rw [hji, hki]
          · rw [hji, List.getElem?_set_self hilen] at hj
            cases hj
            rw [List.getElem?_set_ne (fun he => hki he.symm)] at hk
            rw [hji]
            exact (hinv v).2 i k _ pk hi hk
              (by rw [← hsame v]; exact hcj) hck
        · by_cases hki : k = i
          · rw [hki, List.getElem?_set_self hilen] at hk
            cases hk
            rw [List.getElem?_set_ne (fun he => hji he.symm)] at hj
            rw [hki]
            exact (hinv v).2 j i pj _ hj hi hcj
              (by rw [← hsame v]; exact hck)
          · rw [List.getElem?_set_ne (fun he => hji he.symm)] at hj
            rw [List.getElem?_set_ne (fun he => hki he.symm)] at hk
            exact (hinv v).2 j k pj pk hj hk hcj hck
  | release i u rest hi =>
    obtain ⟨w, hmem⟩ := hwf i _ hi
    obtain ⟨hw, hrest⟩ := release_shape hmem
    clear hw hmem
    subst hrest
    have hilen : i < s.orders.length := (List.getElem?_eq_some.1 hi).1
    constructor
    · intro j p hj
      by_cases hji : j = i
      · rw [hji, List.getElem?_set_self hilen] at hj
        cases hj
        exact ⟨u, by simp [buySuffixes]⟩
      · rw [List.getElem?_set_ne (fun he => hji he.symm)] at hj
        exact hwf j p hj
    · intro v
      constructor
      · intro hlockv j p hj
        by_cases hji : j = i
        · rw [hji, List.getElem?_set_self hilen] at hj
          cases hj
          rfl
        · rw [List.getElem?_set_ne (fun he => hji he.symm)] at hj
          by_cases hvu : v = u
          · cases hc : critHead v p with
            | false => rfl
            | true =>
              exfalso
              have heq := (hinv v).2 i j _ p hi hj
                (by simp [critHead, hvu]) hc
              exact hji heq.symm
          · have hlv : s.lockHeld v = false := by
              simpa [hvu] using hlockv
            exact (hinv v).1 hlv j p hj
      · intro j k pj pk hj hk hcj hck
        by_cases hji : j = i
        · exfalso
          rw [hji, List.getElem?_set_self hilen] at hj
          cases hj
          cases hcj
        · by_cases hki : k = i
          · exfalso
            rw [hki, List.getElem?_set_self hilen] at hk
            cases hk
            cases hck
          · rw [List.getElem?_set_ne (fun he => hji he.symm)] at hj
            rw [List.getElem?_set_ne (fun he => hki he.symm)] at hk
            exact (hinv v).2 j k pj pk hj hk hcj hck

/-- Invariants hold along every reachable state. -/
lemma creach_preserves {s0 s : ConcState} (h : CReach s0 s)
    (h0 : WF s0 ∧ MutexInv s0) : WF s ∧ MutexInv s := by
  induction h with
  | refl => exact h0
  | tail hab hbc ih => exact cstep_preserves hbc ih.1 ih.2

/-- The worker pool's initial state: every order still has its full
worker-pool program, no lock is held. -/
def initPool (users : List Int) : ConcState :=
  ⟨fun _ => false, users.map buyProg⟩

lemma initPool_orders (users : List Int) (i : Nat) (p : List LAction)
    (h : (initPool users).orders[i]? = some p) : ∃ u, p = buyProg u := by
  simp only [initPool] at h
  rw [List.getElem?_map] at h
  cases hu : users[i]? with
  | none => rw [hu] at h; cases h
  | some u =>
    rw [hu] at h
    simp at h
    exact ⟨u, h.symm⟩

lemma initPool_WF (users : List Int) : WF (initPool users) := by
  intro i p hp
  obtain ⟨u, rfl⟩ := initPool_orders users i p hp
  exact ⟨u, by simp [buySuffixes]⟩

lemma initPool_inv (users : List Int) : MutexInv (initPool users) := by
  intro v
  constructor
  · intro _ i p hp
    obtain ⟨u, rfl⟩ := initPool_orders users i p hp
    rfl
  · intro i j pi pj hpi hpj hci _
    obtain ⟨u, rfl⟩ := initPool_orders users i pi hpi
    cases hci

/-- C1 (amended): two orders processed through the worker pool are never
simultaneously inside their ledger execution for the same user, for any
worker count and set of queued orders — the worker holds the user's
exclusive lock across the executor.  (This does not extend to the direct
sell entry point, which never acquires the lock; see the
counterexample.) -/
theorem worker_pool_per_user_exclusion (users : List Int) (s : ConcState)
    (h : CReach (initPool users) s) (i j : Nat) (u : Int)
    (hi : isExecuting s i u) (hj : isExecuting s j u) : i = j := by
  obtain ⟨ri, hi⟩ := hi
  obtain ⟨rj, hj⟩ := hj
  have hinv := (creach_preserves h ⟨initPool_WF users, initPool_inv users⟩).2
  exact (hinv u).2 i j _ _ hi hj (by simp [critHead]) (by simp [critHead])

/-- Witness for C1 (amended): with two worker-pool orders for user 1, the
state where the first is executing is reachable, and the exclusion theorem
applies to it. -/
theorem worker_pool_per_user_exclusion_witness :
    CReach (initPool [1, 1])
      ⟨fun v => if v = 1 then true else false,
       [[LAction.endExec 1, LAction.release 1], buyProg 1]⟩ ∧
    isExecuting
      ⟨fun v => if v = 1 then true else false,
       [[LAction.endExec 1, LAction.release 1], buyProg 1]⟩ 0 1 ∧
    (0 : Nat) = 0 := by
  have hreach : CReach (initPool [1, 1])
      ⟨fun v => if v = 1 then true else false,
       [[LAction.endExec 1, LAction.release 1], buyProg 1]⟩ :=
    Relation.ReflTransGen.head
      (CStep.acquire _ 0 1 [LAction.beginExec 1, LAction.endExec 1,
        LAction.release 1] rfl rfl)
      (Relation.ReflTransGen.head
        (CStep.beginExec _ 0 1 [LAction.endExec 1, LAction.release 1] rfl)
        Relation.ReflTransGen.refl)
  exact ⟨hreach, ⟨[LAction.release 1], rfl⟩,
    worker_pool_per_user_exclusion [1, 1] _ hreach 0 0 1
      ⟨[LAction.release 1], rfl⟩ ⟨[LAction.release 1], rfl⟩⟩

/-- Counterexample for C1 as stated: a direct `SellStock` order never
acquires the per-user lock, so a reachable state has a worker-pool order
and a sell order for the same user 1 executing simultaneously. -/
theorem sell_bypasses_lock_counterexample :
    CReach ⟨fun _ => false, [buyProg 1, sellProg 1]⟩
      ⟨fun v => if v = 1 then true else false,
       [[LAction.endExec 1, LAction.release 1], [LAction.endExec 1]]⟩ ∧
    isExecuting
      ⟨fun v => if v = 1 then true else false,
       [[LAction.endExec 1, LAction.release 1], [LAction.endExec 1]]⟩ 0 1 ∧
    isExecuting
      ⟨fun v => if v = 1 then true else false,
       [[LAction.endExec 1, LAction.release 1], [LAction.endExec 1]]⟩ 1 1 ∧
    (0 : Nat) ≠ 1 := by
  refine ⟨?_, ⟨[LAction.release 1], rfl⟩, ⟨[], rfl⟩, by decide⟩
  exact Relation.ReflTransGen.head
    (CStep.acquire _ 0 1 [LAction.beginExec 1, LAction.endExec 1,
      LAction.release 1] rfl rfl)
    (Relation.ReflTransGen.head
      (CStep.beginExec _ 0 1 [LAction.endExec 1, LAction.release 1] rfl)
      (Relation.ReflTransGen.head
        (CStep.beginExec _ 1 1 [LAction.endExec 1] rfl)
        Relation.ReflTransGen.refl))

end StockSim
